import Mathlib

/-!
Verification development for the warehouse mobile client:
shallow embedding of the location-code codec (`src/lib/locationCodes.ts`),
the Hall-slot allocation and offline sync reconciler of `WorkScreen.tsx`
(`getNextEmptyHallSpots`, `handleSync`, `findNextAvailablePosition`,
`effectiveOccupied`), and the offline lookup hook (`lookupLot`).
All machine strings are modelled as Lean `String` (lists of characters);
JavaScript numeric template interpolation is modelled by decimal rendering.
-/

/-! ## Character and string primitives (JS string semantics) -/

/-- Decimal digit test on code points (JS `\d`). -/
def isDigitChar (c : Char) : Bool := 48 ≤ c.toNat && c.toNat ≤ 57

/-- ASCII whitespace, the fragment of JS `\s` relevant to trimming here. -/
def isWsChar (c : Char) : Bool := c.toNat = 32 || (9 ≤ c.toNat && c.toNat ≤ 13)

/-- Hexadecimal digit test (for JS `parseInt` auto-hex). -/
def isHexDigitChar (c : Char) : Bool :=
  isDigitChar c || (65 ≤ c.toNat && c.toNat ≤ 70) || (97 ≤ c.toNat && c.toNat ≤ 102)

def ofChars (l : List Char) : String := ⟨l⟩

/-- Strip whitespace from both ends of a character list. -/
def trimChars (l : List Char) : List Char :=
  (((l.dropWhile isWsChar).reverse.dropWhile isWsChar)).reverse

/-- JS `String.prototype.trim`. -/
def jsTrim (s : String) : String := ofChars (trimChars s.data)

/-- JS `String.prototype.toUpperCase` (ASCII fragment). -/
def toUpperStr (s : String) : String := ofChars (s.data.map Char.toUpper)

/-- Numeric value of a decimal digit string (fold, as `parseInt` on pure digits). -/
def digitsToNat (l : List Char) : Nat := l.foldl (fun a c => a * 10 + (c.toNat - 48)) 0

/-- Numeric value of a hexadecimal digit string. -/
def hexDigitsToNat (l : List Char) : Nat :=
  l.foldl (fun a c =>
    a * 16 + (if isDigitChar c then c.toNat - 48
              else if c.toNat ≤ 70 then c.toNat - 55 else c.toNat - 87)) 0

def digitChar (d : Nat) : Char := Char.ofNat (48 + d)

/-- Decimal rendering worker; the fuel argument only bounds the recursion
depth and is irrelevant as long as it exceeds the number. -/
def natReprAux : Nat → Nat → List Char
  | 0, _ => []
  | fuel + 1, n =>
    if n < 10 then [digitChar n]
    else natReprAux fuel (n / 10) ++ [digitChar (n % 10)]

/-- Decimal rendering of a natural number (JS template `${n}`). -/
def natReprChars (n : Nat) : List Char := natReprAux (n + 1) n

def natRepr (n : Nat) : String := ofChars (natReprChars n)

/-- Decimal rendering of an integer (JS template `${i}`). -/
def intReprChars (i : Int) : List Char :=
  if i < 0 then '-' :: natReprChars (-i).toNat else natReprChars i.toNat

def intRepr (i : Int) : String := ofChars (intReprChars i)

/-- Does `l` start with `pre`? -/
def startsWithChars (l pre : List Char) : Bool := decide (l.take pre.length = pre)

/-- JS `String.prototype.includes` on character lists. -/
def inclAux (pat : List Char) : List Char → Bool
  | [] => pat.isEmpty
  | c :: rest => startsWithChars (c :: rest) pat || inclAux pat rest

/-- JS `String.prototype.includes`. -/
def strIncludes (s pat : String) : Bool := inclAux pat.data s.data

/-- JS `String.prototype.endsWith`. -/
def endsWithStr (s suffix : String) : Bool :=
  if suffix.data.length ≤ s.data.length then
    decide (s.data.drop (s.data.length - suffix.data.length) = suffix.data)
  else false

/-- JS `split(/[-.]/)`: split on every dash or dot, keeping empty segments. -/
def splitDashDotAux : List Char → List Char → List String
  | [], cur => [ofChars cur.reverse]
  | c :: rest, cur =>
    if c = '-' ∨ c = '.' then ofChars cur.reverse :: splitDashDotAux rest []
    else splitDashDotAux rest (c :: cur)

def splitDashDot (s : String) : List String := splitDashDotAux s.data []

/-- JS `replace(/\./g, '-')`. -/
def replaceDots (s : String) : String :=
  ofChars (s.data.map (fun c => if c = '.' then '-' else c))

/-- JS `String.prototype.padStart(2, '0')` on a character list. -/
def padStart2 (l : List Char) : List Char :=
  if l.length < 2 then List.replicate (2 - l.length) '0' ++ l else l

/-- Truthiness of an optional JS string (`undefined` and `""` are falsy). -/
def truthyStr : Option String → Bool
  | none => false
  | some s => s ≠ ""

/-- First truthy of an optional-string chain (JS `a || b`), `none` if both falsy. -/
def jsTruthy : Option String → Option String
  | none => none
  | some s => if s = "" then none else some s

/-- Unsigned part of JS `parseInt` with no radix: optional `0x` hex, else
leading decimal digits; `none` when no digit is consumed (JS `NaN`). -/
def parseUnsignedJs (cs : List Char) : Option Nat :=
  match cs with
  | '0' :: x :: rest =>
    if x = 'x' ∨ x = 'X' then
      let hs := rest.takeWhile isHexDigitChar
      if hs.isEmpty then none else some (hexDigitsToNat hs)
    else
      let ds := (('0' :: x :: rest).takeWhile isDigitChar)
      if ds.isEmpty then none else some (digitsToNat ds)
  | _ =>
    let ds := cs.takeWhile isDigitChar
    if ds.isEmpty then none else some (digitsToNat ds)

/-- JS `parseInt(s)` (radix auto-detect), `none` standing for `NaN`. -/
def jsParseInt (s : String) : Option Int :=
  match s.data.dropWhile isWsChar with
  | '-' :: rest => (parseUnsignedJs rest).map (fun n => -(n : Int))
  | '+' :: rest => (parseUnsignedJs rest).map (fun n => (n : Int))
  | cs => (parseUnsignedJs cs).map (fun n => (n : Int))

/-! ## LocationCode codec (`src/lib/locationCodes.ts`) -/

inductive Zone where
  | A
  | B
  | S
deriving DecidableEq, Repr

def zoneChar : Zone → Char
  | .A => 'A'
  | .B => 'B'
  | .S => 'S'

/-- `Omit<Slot, 'code'>`: the argument of `formatCode`. -/
structure SlotSpec where
  warehouse : Int
  zone : Zone
  row : Option Nat := none
  level : Option Nat := none
  pos : Nat
  capacity : Nat
deriving DecidableEq, Repr

/-- A parsed slot (`Slot` in `locationCodes.ts`). -/
structure Slot where
  warehouse : Int
  zone : Zone
  row : Option Nat
  level : Option Nat
  pos : Nat
  code : String
  capacity : Nat
deriving DecidableEq, Repr

def slotSpecOf (s : Slot) : SlotSpec :=
  ⟨s.warehouse, s.zone, s.row, s.level, s.pos, s.capacity⟩

/-- `formatCode`: Hall zone renders `S-K<w>.PL<pos>`, shelf zones render
`<zone>-K<w>D<row>T<level>.PL<pos>` with absent row/level rendered as 0. -/
def formatCode (s : SlotSpec) : String :=
  if s.zone = Zone.S then
    ofChars ('S' :: '-' :: 'K' :: (intReprChars s.warehouse ++
      '.' :: 'P' :: 'L' :: natReprChars s.pos))
  else
    ofChars (zoneChar s.zone :: '-' :: 'K' :: (intReprChars s.warehouse ++
      'D' :: (natReprChars (s.row.getD 0) ++
      'T' :: (natReprChars (s.level.getD 0) ++
      '.' :: 'P' :: 'L' :: natReprChars s.pos))))

/-- Single-character case-insensitive literal of the `/i` regexes. -/
def pChar2 (u lo : Char) : List Char → Option (List Char)
  | c :: rest => if c = u ∨ c = lo then some rest else none
  | [] => none

def pChar (ch : Char) : List Char → Option (List Char)
  | c :: rest => if c = ch then some rest else none
  | [] => none

/-- `(A|B)` of the shelf regex, case-insensitive. -/
def pZone : List Char → Option (Zone × List Char)
  | c :: rest =>
    if c = 'A' ∨ c = 'a' then some (Zone.A, rest)
    else if c = 'B' ∨ c = 'b' then some (Zone.B, rest)
    else none
  | [] => none

/-- Split a character list into its leading decimal-digit run and the rest. -/
def splitDigits : List Char → List Char × List Char
  | [] => ([], [])
  | c :: rest =>
    if isDigitChar c then
      let p := splitDigits rest
      (c :: p.1, p.2)
    else ([], c :: rest)

/-- `(\d+)` of the anchored regexes: at least one digit, greedily. -/
def takeDigits1 (cs : List Char) : Option (Nat × List Char) :=
  match splitDigits cs with
  | ([], _) => none
  | (ds, rest) => some (digitsToNat ds, rest)

/-- The shelf grammar `^(A|B)-K(\d+)D(\d+)T(\d+)\.PL(\d+)$` (case-insensitive). -/
def parseRackChars (cs : List Char) : Option (Zone × Nat × Nat × Nat × Nat) :=
  (pZone cs).bind fun zr =>
  (pChar '-' zr.2).bind fun cs =>
  (pChar2 'K' 'k' cs).bind fun cs =>
  (takeDigits1 cs).bind fun wr =>
  (pChar2 'D' 'd' wr.2).bind fun cs =>
  (takeDigits1 cs).bind fun dr =>
  (pChar2 'T' 't' dr.2).bind fun cs =>
  (takeDigits1 cs).bind fun tr =>
  (pChar '.' tr.2).bind fun cs =>
  (pChar2 'P' 'p' cs).bind fun cs =>
  (pChar2 'L' 'l' cs).bind fun cs =>
  (takeDigits1 cs).bind fun pr =>
  if pr.2.isEmpty then some (zr.1, wr.1, dr.1, tr.1, pr.1) else none

/-- The hall grammar `^S-K(\d+)\.PL(\d+)$` (case-insensitive). -/
def parseHallChars (cs : List Char) : Option (Nat × Nat) :=
  (pChar2 'S' 's' cs).bind fun cs =>
  (pChar '-' cs).bind fun cs =>
  (pChar2 'K' 'k' cs).bind fun cs =>
  (takeDigits1 cs).bind fun wr =>
  (pChar '.' wr.2).bind fun cs =>
  (pChar2 'P' 'p' cs).bind fun cs =>
  (pChar2 'L' 'l' cs).bind fun cs =>
  (takeDigits1 cs).bind fun pr =>
  if pr.2.isEmpty then some (wr.1, pr.1) else none

/-- The warehouse-number coercion of `parseCode`: any number outside
`{1,2,3}` becomes 1. -/
def clampWarehouse (w : Nat) : Int :=
  if w = 1 ∨ w = 2 ∨ w = 3 then (w : Int) else 1

/-- `parseCode`: try the shelf grammar, then the hall grammar; `none` for
strings matching neither. The stored `code` is the trimmed input. -/
def parseCode (code : String) : Option Slot :=
  let s := jsTrim code
  match parseRackChars s.data with
  | some (z, w, d, t, p) => some ⟨clampWarehouse w, z, some d, some t, p, s, 1⟩
  | none =>
    match parseHallChars s.data with
    | some (w, p) => some ⟨clampWarehouse w, Zone.S, none, none, p, s, 1⟩
    | none => none

/-! ## Hall-slot allocation (`getNextEmptyHallSpots` in `WorkScreen.tsx`) -/

/-- The Hall code `formatCode({warehouse, zone:'S', pos:i, capacity:1})`. -/
def hallCodeOf (wh : Int) (i : Nat) : String :=
  formatCode { warehouse := wh, zone := Zone.S, pos := i, capacity := 1 }

/-- The `for (let i = 1; i <= 100; i++)` loop body of `getNextEmptyHallSpots`:
push every free code, breaking as soon as `count` codes have been pushed. -/
def hallScan (occupiedSet exclude : List String) (whId : Int) (count : Nat) :
    List Nat → List String → List String
  | [], spots => spots
  | i :: rest, spots =>
    let code := hallCodeOf whId i
    if !(occupiedSet.contains code) && !(exclude.contains code) then
      let spots' := spots ++ [code]
      if count ≤ spots'.length then spots'
      else hallScan occupiedSet exclude whId count rest spots'
    else hallScan occupiedSet exclude whId count rest spots

/-- `getNextEmptyHallSpots(whId, count, exclude)` over the occupied snapshot:
scan Hall pallet indices 1..100 ascending, collecting codes absent from both
the occupied set and the exclusion set. -/
def getNextEmptyHallSpots (occupiedSet : List String) (whId : Int) (count : Nat)
    (exclude : List String) : List String :=
  hallScan occupiedSet exclude whId count (List.range' 1 100) []

/-- All free Hall codes of a warehouse in ascending index order (for the
characterization of `getNextEmptyHallSpots`). -/
def hallFreeCodes (occupiedSet exclude : List String) (whId : Int) : List String :=
  ((List.range' 1 100).map (hallCodeOf whId)).filter
    (fun c => !(occupiedSet.contains c) && !(exclude.contains c))

/-! ## Sync reconciler model (`handleSync` in `WorkScreen.tsx`) -/

/-- A pending Hall-move mutation (interface `PendingMove`). -/
structure PendingMove where
  id : String
  exportOrderId : String
  lotCode : String
  originalPosition : String
  targetWarehouse : String
  movedBy : String
  timestamp : Nat
deriving DecidableEq, Repr

/-- The outcome of a remote `moveToHall` call: fulfilled, or rejected with an
optional HTTP status (`e.response?.status`), optional response-body message
(`e.response?.data?.message`) and optional error message (`e.message`). -/
inductive MoveOutcome where
  | ok
  | reject (status : Option Nat) (dataMessage : Option String) (message : Option String)
deriving DecidableEq, Repr

/-- A deterministic oracle for the remote move endpoint: the outcome of
`moveToHall(move.originalPosition, toPos, move.lotCode, move.movedBy)`. -/
def Remote : Type := PendingMove → String → MoveOutcome

/-- One element of the `results` array of `handleSync`. -/
structure MoveResult where
  success : Bool
  lotCode : String
  error : Option String
deriving DecidableEq, Repr

/-- `e.response?.status === 404 || e.message?.includes('404')`. -/
def is404 (status : Option Nat) (message : Option String) : Bool :=
  status == some 404 ||
    (match message with
     | some s => strIncludes s "404"
     | none => false)

/-- `e.response?.data?.message || e.message || 'Lỗi mạng'`. -/
def rejectMessage (dataMessage message : Option String) : String :=
  match jsTruthy dataMessage with
  | some s => s
  | none =>
    match jsTruthy message with
    | some s => s
    | none => "Lỗi mạng"

/-- The `isNaN(whId) || move.targetWarehouse === 'AUTO'` test selecting the
AUTO allocation ladder. -/
def isAutoBranch (m : PendingMove) : Bool :=
  (jsParseInt m.targetWarehouse).isNone || m.targetWarehouse == "AUTO"

/-- The AUTO ladder: one free Hall slot from warehouse 1, else 2, else 3,
else the "all three warehouses full" error message. -/
def resolveAuto (occupiedSet usedHallSpots : List String) : Except String (String × Int) :=
  match getNextEmptyHallSpots occupiedSet 1 1 usedHallSpots with
  | t :: _ => .ok (t, 1)
  | [] =>
    match getNextEmptyHallSpots occupiedSet 2 1 usedHallSpots with
    | t :: _ => .ok (t, 2)
    | [] =>
      match getNextEmptyHallSpots occupiedSet 3 1 usedHallSpots with
      | t :: _ => .ok (t, 3)
      | [] => .error "Hết chỗ trống ở cả 3 Kho."

/-- Destination resolution of one mutation: the AUTO ladder when the target
warehouse does not parse as a number or is literally `AUTO`, otherwise one
free Hall slot of the requested warehouse. Returns the chosen position code
and the warehouse it belongs to (`toPos`, `targetWhFound`). -/
def resolveDest (occupiedSet usedHallSpots : List String) (m : PendingMove) :
    Except String (String × Int) :=
  match jsParseInt m.targetWarehouse with
  | none => resolveAuto occupiedSet usedHallSpots
  | some w =>
    if m.targetWarehouse = "AUTO" then resolveAuto occupiedSet usedHallSpots
    else
      match getNextEmptyHallSpots occupiedSet w 1 usedHallSpots with
      | [] => .error ("Kho " ++ intRepr w ++ " hết chỗ Sảnh (đã thử 100 vị trí)")
      | t :: _ => .ok (t, w)

/-- Classification of a remote outcome (`try`/`catch` around `moveToHall`):
fulfilled is success; a rejection that looks like a 404 is success with
error `'Recovered'`; any other rejection is a failure with its message. -/
def classifyOutcome (lot : String) : MoveOutcome → MoveResult
  | .ok => ⟨true, lot, none⟩
  | .reject st dm ms =>
    if is404 st ms then ⟨true, lot, some "Recovered"⟩
    else ⟨false, lot, some (rejectMessage dm ms)⟩

/-- Result of processing one mutation: its `results` entry, the destination
it was assigned (if any, with its warehouse), and the updated exclusion set. -/
structure StepOut where
  res : MoveResult
  dest : Option (String × Int)
  used : List String
deriving DecidableEq, Repr

/-- One mutation of the batch: resolve a destination, add it to the shared
`usedHallSpots` set before the remote call is dispatched, then classify the
remote outcome. A failed resolution becomes a per-mutation failure with the
source's message and issues no remote call. -/
def syncStep (occupiedSet : List String) (remote : Remote) (m : PendingMove)
    (usedHallSpots : List String) : StepOut :=
  match resolveDest occupiedSet usedHallSpots m with
  | .error msg => ⟨⟨false, m.lotCode, some msg⟩, none, usedHallSpots⟩
  | .ok (toPos, wh) =>
    ⟨classifyOutcome m.lotCode (remote m toPos), some (toPos, wh),
      usedHallSpots ++ [toPos]⟩

/-- One executed mutation together with its `results` entry and destination. -/
structure SyncEntry where
  move : PendingMove
  res : MoveResult
  dest : Option (String × Int)
deriving DecidableEq, Repr

/-- Sequential execution of a list of mutations threading the shared
`usedHallSpots` exclusion set (destination resolution runs synchronously in
order even inside a concurrent batch, because each async callback runs up to
its first await during the `batch.map`). -/
def runAll (occupiedSet : List String) (remote : Remote) :
    List PendingMove → List String → List SyncEntry × List String
  | [], used => ([], used)
  | m :: rest, used =>
    let s := syncStep occupiedSet remote m used
    let r := runAll occupiedSet remote rest s.used
    (⟨m, s.res, s.dest⟩ :: r.1, r.2)

/-- Batched execution worker; the fuel argument only bounds the recursion
depth and is irrelevant as long as it reaches the queue length. -/
def runBatchesAux (occupiedSet : List String) (remote : Remote) :
    Nat → List PendingMove → List String → List SyncEntry × List String
  | 0, _, used => ([], used)
  | fuel + 1, moves, used =>
    if moves.isEmpty then ([], used)
    else
      let b := runAll occupiedSet remote (moves.take 5) used
      let r := runBatchesAux occupiedSet remote fuel (moves.drop 5) b.2
      (b.1 ++ r.1, r.2)

/-- Batched execution: slices of `BATCH_SIZE = 5`, each batch executed with
the shared exclusion set carried across batches (the 500ms inter-batch delay
is timing only). -/
def runBatches (occupiedSet : List String) (remote : Remote)
    (moves : List PendingMove) (used : List String) : List SyncEntry × List String :=
  runBatchesAux occupiedSet remote moves.length moves used

/-- The observable outcome of one `handleSync` pass. -/
structure SyncOutcome where
  finalQueue : List PendingMove
  entries : List SyncEntry
  alreadyExported : List String
  timestampUpdated : Bool
deriving DecidableEq, Repr

/-- The still-pending mutations (`movesToProcess` in `handleSync`). -/
def movesToProcessOf (pendingMoves : List PendingMove) (deletedLots : List String) :
    List PendingMove :=
  pendingMoves.filter (fun m => !(deletedLots.contains m.lotCode))

/-- The lot codes of queued mutations found in the deleted/exported set
(`alreadyExported` in `handleSync`). -/
def alreadyExportedLots (pendingMoves : List PendingMove) (deletedLots : List String) :
    List String :=
  (pendingMoves.filter (fun m => deletedLots.contains m.lotCode)).map (·.lotCode)

/-- `successfulLots` of `handleSync`. -/
def successfulLotsOf (entries : List SyncEntry) : List String :=
  ((entries.map (·.res)).filter (·.success)).map (·.lotCode)

/-- One sync pass of `handleSync`, given the fetched deleted/exported-lot
list, the fetched occupied-position list, and the remote move oracle:
classify pending mutations against the deleted set, execute the remainder in
batches, then clear every pending mutation whose lot code was successful,
recovered, or already exported. -/
def handleSync (pendingMoves : List PendingMove) (deletedLots occupiedSet : List String)
    (remote : Remote) : SyncOutcome :=
  if pendingMoves.isEmpty then ⟨pendingMoves, [], [], false⟩
  else
    let alreadyExported := alreadyExportedLots pendingMoves deletedLots
    let movesToProcess := movesToProcessOf pendingMoves deletedLots
    if movesToProcess.isEmpty then ⟨[], [], alreadyExported, true⟩
    else
      let entries := (runBatches occupiedSet remote movesToProcess []).1
      let allCleared := successfulLotsOf entries ++ alreadyExported
      let finalQueue :=
        if allCleared.isEmpty then pendingMoves
        else pendingMoves.filter (fun m => !(allCleared.contains m.lotCode))
      ⟨finalQueue, entries, alreadyExported, !allCleared.isEmpty⟩

/-- The destination codes handed out during one pass. -/
def destCodes (o : SyncOutcome) : List String :=
  o.entries.filterMap (fun e => e.dest.map Prod.fst)

/-! ## Allocation engine (`findNextAvailablePosition`, `effectiveOccupied`) -/

/-- A scanned item of the assign screen (interface `ScannedItem`). -/
structure ScannedItem where
  id : String
  timestamp : Nat
  position : String
  synced : Bool
  quantity : Nat
deriving DecidableEq, Repr

/-- Record assignment `rec[k] = v` (later assignments shadow earlier ones). -/
def recSet (f : String → Option String) (k v : String) : String → Option String :=
  fun x => if x = k then some v else f x

/-- `effectiveOccupied`: the server occupancy overlaid with every pending
local item's claimed position (both as written and upper-cased). -/
def effectiveOccupied (occupied : String → Option String) (items : List ScannedItem) :
    String → Option String :=
  items.foldl
    (fun acc i =>
      if i.position ≠ "" then recSet (recSet acc i.position i.id) (toUpperStr i.position) i.id
      else acc)
    occupied

/-- The location-entry predicate of `findNextAvailablePosition`: the entry,
upper-cased, ends in `PL{i}` and its dash/dot-separated tokens witness the
requested warehouse, zone, row and level. -/
def matchesLocation (warehouse : Nat) (zone : String) (row level : Nat) (i : Nat)
    (loc : String) : Bool :=
  let upper := toUpperStr loc
  if !(endsWithStr upper ("PL" ++ natRepr i)) then false
  else
    let parts := splitDashDot upper
    let checkToken := fun (pre : String) (v : Nat) =>
      parts.any (fun p => strIncludes p (pre ++ natRepr v))
    let hasWarehouse := checkToken "W" warehouse || checkToken "K" warehouse ||
      parts.any (fun p => p = natRepr warehouse)
    let hasZone := parts.contains zone
    let hasRow := checkToken "D" row || checkToken "R" row ||
      parts.any (fun p => jsParseInt p == some (row : Int))
    let hasLevel := checkToken "T" level || checkToken "L" level ||
      parts.any (fun p => p = natRepr level)
    hasWarehouse && hasZone && hasRow && hasLevel

/-- The `for (let i = 1; i <= 8; i++)` loop of `findNextAvailablePosition`:
for each index take the first matching location entry and return it when it
is not effectively occupied. -/
def fnapLoop (locations : List String) (effOcc : String → Option String)
    (warehouse : Nat) (zone : String) (row level : Nat) : List Nat → String
  | [] => ""
  | i :: rest =>
    match locations.find? (matchesLocation warehouse zone row level i) with
    | some candidate =>
      if truthyStr (effOcc candidate) || truthyStr (effOcc (toUpperStr candidate)) then
        fnapLoop locations effOcc warehouse zone row level rest
      else candidate
    | none => fnapLoop locations effOcc warehouse zone row level rest

/-- `findNextAvailablePosition(warehouse, zone, row, level)`: empty string
when row or level is null/zero, otherwise the ascending scan over pallet
indices 1..8. -/
def findNextAvailablePosition (locations : List String)
    (effOcc : String → Option String) (warehouse : Nat) (zone : String)
    (row level : Option Nat) : String :=
  match row, level with
  | some r, some l =>
    if r = 0 ∨ l = 0 then ""
    else fnapLoop locations effOcc warehouse zone r l (List.range' 1 8)
  | _, _ => ""

/-- The per-index reading of the allocation scan: first matching entry per
index, kept only when effectively free, first index that yields one wins. -/
def findNextAvailableSpec (locations : List String)
    (effOcc : String → Option String) (warehouse : Nat) (zone : String)
    (row level : Option Nat) : String :=
  match row, level with
  | some r, some l =>
    if r = 0 ∨ l = 0 then ""
    else
      ((List.range' 1 8).findSome? (fun i =>
        (locations.find? (matchesLocation warehouse zone r l i)).bind (fun c =>
          if truthyStr (effOcc c) || truthyStr (effOcc (toUpperStr c)) then none
          else some c))).getD ""
  | _, _ => ""

/-! ## Offline lookup (`lookupLot` in the offline-lookup hook)

The hook parses stored position strings with the liberal pattern
`(?:(?:KHO|K|W)?(\d+)[^A-Z0-9]*)?([ABS])(?:[^A-Z0-9]*(?:D|R|DAY)?(\d+))?`
`(?:[^A-Z0-9]*(?:T|L|TANG)?(\d+))?(?:[^A-Z0-9]*(?:P|VT)?(\d+))`.
The pattern is embedded as a small regex syntax tree and executed with the
standard leftmost, greedy, ordered-alternation backtracking semantics of a
JS regex engine; all repetition in the pattern is over single-character
classes, so the match enumeration is structurally recursive. -/

/-- `[^A-Z0-9]` of the liberal pattern. -/
def isNonAlnum (c : Char) : Bool := !((65 ≤ c.toNat && c.toNat ≤ 90) || isDigitChar c)

/-- Capture groups 1-5 of the liberal pattern. -/
structure Caps where
  g1 : Option (List Char) := none
  g2 : Option Char := none
  g3 : Option (List Char) := none
  g4 : Option (List Char) := none
  g5 : Option (List Char) := none
deriving DecidableEq, Repr

def setDig (i : Nat) (v : List Char) (cp : Caps) : Caps :=
  match i with
  | 1 => { cp with g1 := some v }
  | 3 => { cp with g3 := some v }
  | 4 => { cp with g4 := some v }
  | 5 => { cp with g5 := some v }
  | _ => cp

/-- Syntax of the liberal pattern: literals, the `[^A-Z0-9]*` star, the
`([ABS])` capture, `(\d+)` captures, sequencing, ordered alternation and
greedy option. -/
inductive RE where
  | lit (cs : List Char)
  | starNonAl
  | grpZone
  | grpDigits (i : Nat)
  | seq (a b : RE)
  | alt (a b : RE)
  | opt (a : RE)

/-- All ways a pattern can match a prefix of `s`, as `(remaining, captures)`
pairs in backtracking priority order (greedy repetitions longest first,
alternatives left to right). -/
def matchAll : RE → List Char → Caps → List (List Char × Caps)
  | .lit cs, s, cp =>
    if startsWithChars s cs then [(s.drop cs.length, cp)] else []
  | .starNonAl, s, cp =>
    let m := (s.takeWhile isNonAlnum).length
    (List.range (m + 1)).map (fun j => (s.drop (m - j), cp))
  | .grpZone, s, cp =>
    match s with
    | c :: rest =>
      if c = 'A' ∨ c = 'B' ∨ c = 'S' then [(rest, { cp with g2 := some c })] else []
    | [] => []
  | .grpDigits i, s, cp =>
    let m := (s.takeWhile isDigitChar).length
    if m = 0 then []
    else (List.range m).map (fun j => (s.drop (m - j), setDig i (s.take (m - j)) cp))
  | .seq a b, s, cp => (matchAll a s cp).flatMap (fun p => matchAll b p.1 p.2)
  | .alt a b, s, cp => matchAll a s cp ++ matchAll b s cp
  | .opt a, s, cp => matchAll a s cp ++ [(s, cp)]

/-- The liberal position pattern as a syntax tree. -/
def posPattern : RE :=
  .seq (.opt (.seq (.opt (.alt (.lit ['K','H','O']) (.alt (.lit ['K']) (.lit ['W']))))
                   (.seq (.grpDigits 1) .starNonAl)))
  (.seq .grpZone
  (.seq (.opt (.seq .starNonAl
              (.seq (.opt (.alt (.lit ['D']) (.alt (.lit ['R']) (.lit ['D','A','Y']))))
                    (.grpDigits 3))))
  (.seq (.opt (.seq .starNonAl
              (.seq (.opt (.alt (.lit ['T']) (.alt (.lit ['L']) (.lit ['T','A','N','G']))))
                    (.grpDigits 4))))
  (.seq .starNonAl
  (.seq (.opt (.alt (.lit ['P']) (.lit ['V','T'])))
        (.grpDigits 5))))))

/-- Leftmost match of the liberal pattern (`String.prototype.match` without
the global flag): try each start position in order, take the first
full-pattern match in backtracking order. -/
def regexGroups (s : List Char) : Option Caps :=
  match matchAll posPattern s {} with
  | p :: _ => some p.2
  | [] =>
    match s with
    | [] => none
    | _ :: rest => regexGroups rest

/-- Product detail stored in the position index of the offline hook. -/
structure Detail where
  productCode : String
  productName : String
  unit : String
  quantity : Nat
deriving DecidableEq, Repr

/-- The record returned by `lookupLot` (interface `OfflineItem`). -/
structure OfflineItem where
  productCode : String
  productName : String
  unit : String
  quantity : Nat
  lotCode : String
  position : String
deriving DecidableEq, Repr

def decorate (d : Detail) (lot pos : String) : OfflineItem :=
  ⟨d.productCode, d.productName, d.unit, d.quantity, lot, pos⟩

/-- Hall signature `${i}-${z}-HALL-${p}` tried by the hall branch. -/
def hallKey (i : Nat) (z : Char) (p : Nat) : String :=
  natRepr i ++ "-" ++ ofChars [z] ++ "-HALL-" ++ natRepr p

/-- Rack signature `${i}-${z}-${r}-${l}-${p}` tried by the shelf branch. -/
def rackKey (i : Nat) (z : Char) (r l : List Char) (p : Nat) : String :=
  natRepr i ++ "-" ++ ofChars [z] ++ "-" ++ ofChars r ++ "-" ++ ofChars l ++
    "-" ++ natRepr p

/-- The `for (const i of [1, 2, 3])` hall loop. -/
def hallLoop (posToDetail : String → Option Detail) (mk : Nat → String) :
    List Nat → Option Detail
  | [] => none
  | i :: rest =>
    match posToDetail (mk i) with
    | some d => some d
    | none => hallLoop posToDetail mk rest

/-- The `for (const i of whs)` shelf loop: raw signature first, then the
signature with the rack token zero-padded to two digits. -/
def rackLoop (posToDetail : String → Option Detail) (mk1 mk2 : Nat → String) :
    List Nat → Option Detail
  | [] => none
  | i :: rest =>
    match posToDetail (mk1 i) with
    | some d => some d
    | none =>
      match posToDetail (mk2 i) with
      | some d => some d
      | none => rackLoop posToDetail mk1 mk2 rest

/-- `lookupLot`: normalize the lot code, fetch its stored position string,
parse the position liberally, and probe the position→detail index along the
hall or shelf branch. -/
def lookupLot (lotToPos : String → Option String) (posToDetail : String → Option Detail)
    (lotCode : String) : Option OfflineItem :=
  let normLot := toUpperStr (jsTrim lotCode)
  match lotToPos normLot with
  | none => none
  | some posString =>
    let upperPos := replaceDots (toUpperStr posString)
    match regexGroups upperPos.data with
    | none => none
    | some cp =>
      match cp.g2 with
      | none => none
      | some z =>
        let r := cp.g3.getD ['0']
        let l := cp.g4.getD ['0']
        let p := digitsToNat (cp.g5.getD [])
        if z = 'S' ∨ (z = 'B' ∧ cp.g3 = none) then
          (hallLoop posToDetail (fun i => hallKey i z p) [1, 2, 3]).map
            (fun d => decorate d normLot posString)
        else
          let whs := match cp.g1 with
            | some ds => [digitsToNat ds]
            | none => [1, 2, 3]
          (rackLoop posToDetail
              (fun i => rackKey i z r l p)
              (fun i => rackKey i z (padStart2 r) l p) whs).map
            (fun d => decorate d normLot posString)

/-- The candidate-signature reading of `lookupLot`: the ordered list of
index keys the lookup may probe, given the parsed captures. -/
def lookupCandidates (cp : Caps) (z : Char) : List String :=
  let r := cp.g3.getD ['0']
  let l := cp.g4.getD ['0']
  let p := digitsToNat (cp.g5.getD [])
  if z = 'S' ∨ (z = 'B' ∧ cp.g3 = none) then
    [1, 2, 3].map (fun i => hallKey i z p)
  else
    let whs := match cp.g1 with
      | some ds => [digitsToNat ds]
      | none => [1, 2, 3]
    whs.flatMap (fun i => [rackKey i z r l p, rackKey i z (padStart2 r) l p])

/-- `lookupLot` re-expressed as "first candidate signature present in the
index wins", following the documented fallback order. -/
def lookupLotByCandidates (lotToPos : String → Option String)
    (posToDetail : String → Option Detail) (lotCode : String) : Option OfflineItem :=
  let normLot := toUpperStr (jsTrim lotCode)
  match lotToPos normLot with
  | none => none
  | some posString =>
    let upperPos := replaceDots (toUpperStr posString)
    match regexGroups upperPos.data with
    | none => none
    | some cp =>
      match cp.g2 with
      | none => none
      | some z =>
        ((lookupCandidates cp z).findSome? posToDetail).map
          (fun d => decorate d normLot posString)

/-- The shelf signature with both the rack and the level token zero-padded,
the retry the specification describes. -/
def specPaddedBothKey (i : Nat) (z : Char) (r l : List Char) (p : Nat) : String :=
  rackKey i z (padStart2 r) (padStart2 l) p

/-! ## Concrete instances used by the theorems below -/

def remoteAllOk : Remote := fun _ _ => MoveOutcome.ok

/-- Three queued AUTO Hall-moves for the end-to-end allocation scenario. -/
def autoMoves : List PendingMove :=
  [⟨"id1", "EO", "LA", "A-K1D1T1.PL1", "AUTO", "u", 0⟩,
   ⟨"id2", "EO", "LB", "A-K1D1T2.PL1", "AUTO", "u", 0⟩,
   ⟨"id3", "EO", "LC", "A-K1D1T3.PL1", "AUTO", "u", 0⟩]

/-- Warehouse 1 with Hall positions 1..99 occupied: exactly one free slot. -/
def occ99 : List String := (List.range' 1 99).map (hallCodeOf 1)

def mvAuto : PendingMove := ⟨"id0", "EO", "L0", "A-K1D1T1.PL1", "AUTO", "u", 0⟩

/-- A remote oracle rejecting with HTTP 500 and a message containing "404". -/
def remoteReject404Msg : Remote :=
  fun _ _ => MoveOutcome.reject (some 500) none (some "proxy returned 404 page")

def mvRecA : PendingMove := ⟨"idr", "EO", "L1", "A-K1D1T1.PL1", "AUTO", "u", 0⟩

/-- Two pending moves sharing lot code `L2` from two different orders. -/
def dupMovesC2 : List PendingMove :=
  [⟨"idA", "EO1", "L2", "P1", "AUTO", "u", 0⟩,
   ⟨"idB", "EO2", "L2", "P2", "AUTO", "u", 0⟩]

def remoteDupC2 : Remote := fun m _ =>
  if m.originalPosition = "P1" then MoveOutcome.ok
  else MoveOutcome.reject (some 500) none (some "bad2")

/-- Two pending moves sharing lot code `LX` from two different orders. -/
def dupMovesC3 : List PendingMove :=
  [⟨"idC", "EO1", "LX", "Q1", "AUTO", "u", 0⟩,
   ⟨"idD", "EO2", "LX", "Q2", "AUTO", "u", 0⟩]

def remoteDupC3 : Remote := fun m _ =>
  if m.originalPosition = "Q1" then MoveOutcome.ok
  else MoveOutcome.reject (some 500) none (some "boom")

def mvDeleted : PendingMove := ⟨"idE", "EO", "LD", "R1", "AUTO", "u", 0⟩

def mvKept : PendingMove := ⟨"idF", "EO", "LE", "R2", "2", "u", 0⟩

def locsFree3 : List String := ["A-K1D1T1.PL1", "A-K1D1T1.PL2", "A-K1D1T1.PL3"]

def occNone : String → Option String := fun _ => none

def serverOccPL2 : String → Option String :=
  fun s => if s = "A-K1D1T1.PL2" then some "LOTQ" else none

def itemsPL1 : List ScannedItem := [⟨"LOTP", 0, "A-K1D1T1.PL1", false, 1⟩]

/-- Two location entries that both token-match warehouse 1, zone A, row 1,
level 1, pallet 1. -/
def locsDup : List String := ["A-K1D1T1.PL1", "A-K1.D1.T1.PL1"]

def occDup : String → Option String :=
  fun s => if s = "A-K1D1T1.PL1" then some "LOTX" else none

def detail1 : Detail := ⟨"PC", "PN", "kg", 5⟩

def detailWh1 : Detail := ⟨"A1", "A1", "kg", 1⟩

def detailWh2 : Detail := ⟨"B2", "B2", "kg", 2⟩

def lotToPosShelf : String → Option String :=
  fun s => if s = "LOTX" then some "K1-A-D1-T1-P1" else none

/-- An index that only contains the signature with rack and level both
zero-padded. -/
def posToDetailPadded : String → Option Detail :=
  fun s => if s = "1-A-01-01-1" then some detail1 else none

def lotToPosHall : String → Option String :=
  fun s => if s = "LOTY" then some "K2-S-P5" else none

/-- An index holding hall position 5 of warehouses 1 and 2. -/
def posToDetailHall : String → Option Detail :=
  fun s =>
    if s = "1-S-HALL-5" then some detailWh1
    else if s = "2-S-HALL-5" then some detailWh2
    else none

def slotWitness : Slot := ⟨1, Zone.A, some 2, some 3, 4, "A-K1D2T3.PL4", 1⟩

/-- A valid slot: known warehouse, capacity one, canonical code, positive
row/level exactly on shelf zones. -/
def ValidSlot (s : Slot) : Prop :=
  (s.warehouse = 1 ∨ s.warehouse = 2 ∨ s.warehouse = 3) ∧
  s.capacity = 1 ∧
  s.code = formatCode (slotSpecOf s) ∧
  (s.zone = Zone.S → s.row = none ∧ s.level = none) ∧
  (s.zone ≠ Zone.S → (∃ r, s.row = some r ∧ 0 < r) ∧ (∃ l, s.level = some l ∧ 0 < l))

/-! # Theorems

First the groundwork: decimal rendering round-trips through digit parsing,
trimming is the identity on the rendered codes, and the anchored grammar
parsers invert `formatCode`. -/

theorem digitChar_toNat : ∀ d, d < 10 → (digitChar d).toNat = 48 + d := by
  decide

theorem isDigitChar_digitChar : ∀ d, d < 10 → isDigitChar (digitChar d) = true := by
  decide

theorem natReprAux_irrel : ∀ f1 f2 n : Nat, n < f1 → n < f2 →
    natReprAux f1 n = natReprAux f2 n := by
  intro f1
  induction f1 with
  | zero => omega
  | succ f ih =>
    intro f2 n h1 h2
    cases f2 with
    | zero => omega
    | succ f2' =>
      simp only [natReprAux]
      split
      · rfl
      · next h =>
        have hd : n / 10 < n := Nat.div_lt_self (by omega) (by omega)
        rw [ih f2' (n / 10) (by omega) (by omega)]

theorem natReprChars_eq (n : Nat) :
    natReprChars n =
      if n < 10 then [digitChar n]
      else natReprChars (n / 10) ++ [digitChar (n % 10)] := by
  show natReprAux (n + 1) n = _
  simp only [natReprAux]
  split
  · rfl
  · next h =>
    have hd : n / 10 < n := Nat.div_lt_self (by omega) (by omega)
    rw [natReprAux_irrel n (n / 10 + 1) (n / 10) (by omega) (by omega)]
    rfl

theorem natReprChars_ne_nil (n : Nat) : natReprChars n ≠ [] := by
  rw [natReprChars_eq]
  split <;> simp

theorem natReprChars_all_digit (n : Nat) : ∀ c ∈ natReprChars n, isDigitChar c = true := by
  induction n using Nat.strong_induction_on with
  | _ n ih =>
    rw [natReprChars_eq]
    split
    · next h =>
      intro c hc
      simp at hc
      subst hc
      exact isDigitChar_digitChar n h
    · next h =>
      intro c hc
      simp at hc
      rcases hc with hc | hc
      · exact ih (n / 10) (Nat.div_lt_self (by omega) (by omega)) c hc
      · subst hc
        exact isDigitChar_digitChar (n % 10) (Nat.mod_lt _ (by omega))

theorem digitsToNat_append_one (l : List Char) (c : Char) :
    digitsToNat (l ++ [c]) = digitsToNat l * 10 + (c.toNat - 48) := by
  simp [digitsToNat, List.foldl_append]

theorem digitsToNat_natReprChars (n : Nat) : digitsToNat (natReprChars n) = n := by
  induction n using Nat.strong_induction_on with
  | _ n ih =>
    rw [natReprChars_eq]
    split
    · next h =>
      simp [digitsToNat, digitChar_toNat n h]
    · next h =>
      rw [digitsToNat_append_one, ih (n / 10) (Nat.div_lt_self (by omega) (by omega)),
        digitChar_toNat (n % 10) (Nat.mod_lt _ (by omega))]
      omega

theorem intReprChars_ofNat (w : Nat) : intReprChars (w : Int) = natReprChars w := by
  simp [intReprChars]

theorem splitDigits_eq (ds rest : List Char) (hds : ∀ c ∈ ds, isDigitChar c = true)
    (hrest : ∀ c, rest.head? = some c → isDigitChar c = false) :
    splitDigits (ds ++ rest) = (ds, rest) := by
  induction ds with
  | nil =>
    cases rest with
    | nil => rfl
    | cons c t =>
      simp [splitDigits, hrest c rfl]
  | cons c t iht =>
    have hc : isDigitChar c = true := hds c (by simp)
    have ht : ∀ x ∈ t, isDigitChar x = true := fun x hx => hds x (by simp [hx])
    simp [splitDigits, hc, iht ht]

theorem takeDigits1_render (n : Nat) (rest : List Char)
    (hrest : ∀ c, rest.head? = some c → isDigitChar c = false) :
    takeDigits1 (natReprChars n ++ rest) = some (n, rest) := by
  unfold takeDigits1
  rw [splitDigits_eq (natReprChars n) rest (natReprChars_all_digit n) hrest]
  cases h : natReprChars n with
  | nil => exact absurd h (natReprChars_ne_nil n)
  | cons c t =>
    show some (digitsToNat (c :: t), rest) = some (n, rest)
    rw [← h, digitsToNat_natReprChars]

theorem dropWhile_eq_self_of_head {p : Char → Bool} (l : List Char)
    (h : ∀ c, l.head? = some c → p c = false) : l.dropWhile p = l := by
  cases l with
  | nil => rfl
  | cons c t => simp [List.dropWhile_cons, h c rfl]

theorem trimChars_eq_self (l : List Char)
    (h1 : ∀ c, l.head? = some c → isWsChar c = false)
    (h2 : ∀ c, l.getLast? = some c → isWsChar c = false) : trimChars l = l := by
  unfold trimChars
  rw [dropWhile_eq_self_of_head l h1]
  rw [dropWhile_eq_self_of_head l.reverse (by
    intro c hc
    rw [List.head?_reverse] at hc
    exact h2 c hc)]
  exact l.reverse_reverse

theorem isWsChar_of_digit (c : Char) (h : isDigitChar c = true) : isWsChar c = false := by
  simp [isDigitChar] at h
  simp [isWsChar]
  omega

theorem takeDigits1_render_cons (n : Nat) (c : Char) (rest : List Char)
    (hc : isDigitChar c = false) :
    takeDigits1 (natReprChars n ++ c :: rest) = some (n, c :: rest) :=
  takeDigits1_render n (c :: rest) (by intro x hx; simp at hx; subst hx; exact hc)

theorem takeDigits1_render_nil (n : Nat) : takeDigits1 (natReprChars n) = some (n, []) := by
  have h := takeDigits1_render n [] (by intro c hc; simp at hc)
  simpa using h

theorem parseRackChars_render (z : Zone) (hz : z ≠ Zone.S) (w d t p : Nat) :
    parseRackChars (zoneChar z :: '-' :: 'K' :: (natReprChars w ++
      'D' :: (natReprChars d ++ 'T' :: (natReprChars t ++
      '.' :: 'P' :: 'L' :: natReprChars p)))) = some (z, w, d, t, p) := by
  have hD : isDigitChar 'D' = false := by decide
  have hT : isDigitChar 'T' = false := by decide
  have hDot : isDigitChar '.' = false := by decide
  cases z with
  | S => exact absurd rfl hz
  | A =>
    simp [parseRackChars, pZone, pChar, pChar2, takeDigits1_render_cons _ _ _ hD,
      takeDigits1_render_cons _ _ _ hT, takeDigits1_render_cons _ _ _ hDot,
      takeDigits1_render_nil, zoneChar]
  | B =>
    simp [parseRackChars, pZone, pChar, pChar2, takeDigits1_render_cons _ _ _ hD,
      takeDigits1_render_cons _ _ _ hT, takeDigits1_render_cons _ _ _ hDot,
      takeDigits1_render_nil, zoneChar]

theorem parseHallChars_render (w p : Nat) :
    parseHallChars ('S' :: '-' :: 'K' :: (natReprChars w ++
      '.' :: 'P' :: 'L' :: natReprChars p)) = some (w, p) := by
  have hDot : isDigitChar '.' = false := by decide
  simp [parseHallChars, pChar, pChar2, takeDigits1_render_cons _ _ _ hDot,
    takeDigits1_render_nil]

theorem parseRackChars_hall_none (w p : Nat) :
    parseRackChars ('S' :: '-' :: 'K' :: (natReprChars w ++
      '.' :: 'P' :: 'L' :: natReprChars p)) = none := by
  simp [parseRackChars, pZone]

theorem mem_of_getLast?_render (l : List Char) (n : Nat) (c : Char)
    (h : (l ++ natReprChars n).getLast? = some c) : c ∈ natReprChars n := by
  rw [List.getLast?_append_of_ne_nil l (natReprChars_ne_nil n)] at h
  obtain ⟨hne, hc⟩ := List.mem_getLast?_eq_getLast (by simpa using h)
  subst hc
  exact List.getLast_mem hne

theorem trimChars_render_rack (z : Zone) (w d t p : Nat) :
    trimChars (zoneChar z :: '-' :: 'K' :: (natReprChars w ++
      'D' :: (natReprChars d ++ 'T' :: (natReprChars t ++
      '.' :: 'P' :: 'L' :: natReprChars p)))) =
    zoneChar z :: '-' :: 'K' :: (natReprChars w ++
      'D' :: (natReprChars d ++ 'T' :: (natReprChars t ++
      '.' :: 'P' :: 'L' :: natReprChars p))) := by
  apply trimChars_eq_self
  · intro c hc
    simp at hc
    subst hc
    cases z <;> decide
  · intro c hc
    have hre : zoneChar z :: '-' :: 'K' :: (natReprChars w ++
        'D' :: (natReprChars d ++ 'T' :: (natReprChars t ++
        '.' :: 'P' :: 'L' :: natReprChars p))) =
        (zoneChar z :: '-' :: 'K' :: (natReprChars w ++
        'D' :: (natReprChars d ++ 'T' :: (natReprChars t ++
        ['.', 'P', 'L'])))) ++ natReprChars p := by
      simp
    rw [hre] at hc
    exact isWsChar_of_digit c
      (natReprChars_all_digit p c (mem_of_getLast?_render _ p c hc))

theorem trimChars_render_hall (w p : Nat) :
    trimChars ('S' :: '-' :: 'K' :: (natReprChars w ++
      '.' :: 'P' :: 'L' :: natReprChars p)) =
    'S' :: '-' :: 'K' :: (natReprChars w ++ '.' :: 'P' :: 'L' :: natReprChars p) := by
  apply trimChars_eq_self
  · intro c hc
    simp at hc
    subst hc
    decide
  · intro c hc
    have hre : 'S' :: '-' :: 'K' :: (natReprChars w ++
        '.' :: 'P' :: 'L' :: natReprChars p) =
        ('S' :: '-' :: 'K' :: (natReprChars w ++ ['.', 'P', 'L'])) ++ natReprChars p := by
      simp
    rw [hre] at hc
    exact isWsChar_of_digit c
      (natReprChars_all_digit p c (mem_of_getLast?_render _ p c hc))

theorem parseCode_format_rack (z : Zone) (hz : z ≠ Zone.S) (w d t p cap : Nat) :
    parseCode (formatCode ⟨(w : Int), z, some d, some t, p, cap⟩) =
      some ⟨clampWarehouse w, z, some d, some t, p,
        formatCode ⟨(w : Int), z, some d, some t, p, cap⟩, 1⟩ := by
  have hfmt : formatCode ⟨(w : Int), z, some d, some t, p, cap⟩ =
      ofChars (zoneChar z :: '-' :: 'K' :: (natReprChars w ++
        'D' :: (natReprChars d ++ 'T' :: (natReprChars t ++
        '.' :: 'P' :: 'L' :: natReprChars p)))) := by
    simp [formatCode, hz, intReprChars_ofNat]
  rw [hfmt]
  unfold parseCode
  simp only [jsTrim, ofChars, trimChars_render_rack, parseRackChars_render z hz w d t p]

theorem parseCode_format_hall (w p cap : Nat) :
    parseCode (formatCode ⟨(w : Int), Zone.S, none, none, p, cap⟩) =
      some ⟨clampWarehouse w, Zone.S, none, none, p,
        formatCode ⟨(w : Int), Zone.S, none, none, p, cap⟩, 1⟩ := by
  have hfmt : formatCode ⟨(w : Int), Zone.S, none, none, p, cap⟩ =
      ofChars ('S' :: '-' :: 'K' :: (natReprChars w ++
        '.' :: 'P' :: 'L' :: natReprChars p)) := by
    simp [formatCode, intReprChars_ofNat]
  rw [hfmt]
  unfold parseCode
  simp only [jsTrim, ofChars, trimChars_render_hall, parseRackChars_hall_none,
    parseHallChars_render]

theorem clampWarehouse_mem (w : Nat) :
    clampWarehouse w = 1 ∨ clampWarehouse w = 2 ∨ clampWarehouse w = 3 := by
  unfold clampWarehouse
  split
  · next h => rcases h with h | h | h <;> subst h <;> simp
  · left
    rfl

theorem clampWarehouse_out (w : Nat) (h : ¬(w = 1 ∨ w = 2 ∨ w = 3)) :
    clampWarehouse w = 1 := by
  unfold clampWarehouse
  exact if_neg h

/-- Claim C8: for every valid `Slot` (warehouse in 1..3, canonical code,
capacity 1, positive row/level exactly on shelf zones), decoding the encoded
code returns the slot itself: `parseCode (formatCode s) = s`. -/
theorem parse_format_roundtrip (s : Slot) (hv : ValidSlot s) :
    parseCode s.code = some s := by
  obtain ⟨hw, hcap, hcode, hSrow, hshelf⟩ := hv
  cases s with
  | mk wh zone row level pos code capacity =>
    simp only at hw hcap hcode hSrow hshelf ⊢
    subst hcap
    cases zone with
    | S =>
      obtain ⟨hrow, hlevel⟩ := hSrow rfl
      subst hrow
      subst hlevel
      simp only [slotSpecOf] at hcode
      rcases hw with h | h | h <;>
        (subst h
         rw [hcode]
         first
          | exact parseCode_format_hall 1 pos 1
          | exact parseCode_format_hall 2 pos 1
          | exact parseCode_format_hall 3 pos 1)
    | A =>
      obtain ⟨⟨r, hr, _⟩, ⟨l, hl, _⟩⟩ := hshelf (by decide)
      subst hr
      subst hl
      simp only [slotSpecOf] at hcode
      rcases hw with h | h | h <;>
        (subst h
         rw [hcode]
         first
          | exact parseCode_format_rack Zone.A (by decide) 1 r l pos 1
          | exact parseCode_format_rack Zone.A (by decide) 2 r l pos 1
          | exact parseCode_format_rack Zone.A (by decide) 3 r l pos 1)
    | B =>
      obtain ⟨⟨r, hr, _⟩, ⟨l, hl, _⟩⟩ := hshelf (by decide)
      subst hr
      subst hl
      simp only [slotSpecOf] at hcode
      rcases hw with h | h | h <;>
        (subst h
         rw [hcode]
         first
          | exact parseCode_format_rack Zone.B (by decide) 1 r l pos 1
          | exact parseCode_format_rack Zone.B (by decide) 2 r l pos 1
          | exact parseCode_format_rack Zone.B (by decide) 3 r l pos 1)

theorem parse_format_roundtrip_witness : parseCode "A-K1D2T3.PL4" = some slotWitness := by
  refine parse_format_roundtrip slotWitness ⟨Or.inl rfl, rfl, ?_, ?_, ?_⟩
  · decide
  · decide
  · intro _
    exact ⟨⟨2, rfl, by decide⟩, ⟨3, rfl, by decide⟩⟩

/-- Claim C9 (amended wording identical to the claim): `parseCode` always
returns a warehouse in `{1,2,3}`; on a code of either grammar whose
warehouse number is outside `{1,2,3}` the warehouse field is coerced to 1
while zone, row, level and pos parse normally; in particular
`parseCode "A-K9D1T1.PL1"` has warehouse 1. -/
theorem parse_warehouse_clamp :
    (∀ (s : String) (slot : Slot), parseCode s = some slot →
      (slot.warehouse = 1 ∨ slot.warehouse = 2 ∨ slot.warehouse = 3))
    ∧ (∀ (z : Zone), z ≠ Zone.S → ∀ (w d t p : Nat), ¬(w = 1 ∨ w = 2 ∨ w = 3) →
        parseCode (formatCode ⟨(w : Int), z, some d, some t, p, 1⟩) =
          some ⟨1, z, some d, some t, p,
            formatCode ⟨(w : Int), z, some d, some t, p, 1⟩, 1⟩)
    ∧ (∀ (w p : Nat), ¬(w = 1 ∨ w = 2 ∨ w = 3) →
        parseCode (formatCode ⟨(w : Int), Zone.S, none, none, p, 1⟩) =
          some ⟨1, Zone.S, none, none, p,
            formatCode ⟨(w : Int), Zone.S, none, none, p, 1⟩, 1⟩)
    ∧ parseCode "A-K9D1T1.PL1" =
        some ⟨1, Zone.A, some 1, some 1, 1, "A-K9D1T1.PL1", 1⟩ := by
  refine ⟨?_, ?_, ?_, ?_⟩
  · intro s slot h
    simp only [parseCode] at h
    cases hr : parseRackChars (jsTrim s).data with
    | some v =>
      obtain ⟨z, w, d, t, p⟩ := v
      rw [hr] at h
      simp only [] at h
      injection h with h2
      rw [← h2]
      exact clampWarehouse_mem w
    | none =>
      rw [hr] at h
      cases hh : parseHallChars (jsTrim s).data with
      | some v =>
        obtain ⟨w, p⟩ := v
        rw [hh] at h
        simp only [] at h
        injection h with h2
        rw [← h2]
        exact clampWarehouse_mem w
      | none =>
        rw [hh] at h
        simp at h
  · intro z hz w d t p hw
    rw [parseCode_format_rack z hz w d t p 1, clampWarehouse_out w hw]
  · intro w p hw
    rw [parseCode_format_hall w p 1, clampWarehouse_out w hw]
  · decide

theorem parse_warehouse_clamp_witness :
    parseCode (formatCode ⟨((9 : Nat) : Int), Zone.A, some 1, some 1, 1, 1⟩) =
      some ⟨1, Zone.A, some 1, some 1, 1,
        formatCode ⟨((9 : Nat) : Int), Zone.A, some 1, some 1, 1, 1⟩, 1⟩ :=
  parse_warehouse_clamp.2.1 Zone.A (by decide) 9 1 1 1 (by decide)

theorem hallScan_take (occ excl : List String) (wh : Int) (count : Nat) :
    ∀ (idxs : List Nat) (spots : List String), spots.length < count →
      hallScan occ excl wh count idxs spots =
        spots ++ ((idxs.map (hallCodeOf wh)).filter
          (fun c => !(occ.contains c) && !(excl.contains c))).take (count - spots.length) := by
  intro idxs
  induction idxs with
  | nil =>
    intro spots h
    simp [hallScan]
  | cons i rest ih =>
    intro spots h
    have hlen : (spots ++ [hallCodeOf wh i]).length = spots.length + 1 := by simp
    by_cases hp : (!(occ.contains (hallCodeOf wh i)) && !(excl.contains (hallCodeOf wh i))) = true
    · by_cases hstop : count ≤ (spots ++ [hallCodeOf wh i]).length
      · have hcnt : count - spots.length = 1 := by
          rw [hlen] at hstop
          omega
        show (if (!(occ.contains (hallCodeOf wh i)) && !(excl.contains (hallCodeOf wh i))) = true
              then _ else _) = _
        rw [if_pos hp, if_pos hstop, List.map_cons, List.filter_cons, if_pos hp, hcnt,
          List.take_succ_cons, List.take_zero]
      · have hlt : (spots ++ [hallCodeOf wh i]).length < count := by omega
        have hcnt : count - spots.length = (count - (spots ++ [hallCodeOf wh i]).length) + 1 := by
          rw [hlen]
          omega
        show (if (!(occ.contains (hallCodeOf wh i)) && !(excl.contains (hallCodeOf wh i))) = true
              then _ else _) = _
        rw [if_pos hp, if_neg hstop, ih _ hlt, List.map_cons, List.filter_cons, if_pos hp, hcnt,
          List.take_succ_cons]
        simp
    · have hp' : (!(occ.contains (hallCodeOf wh i)) && !(excl.contains (hallCodeOf wh i))) = false :=
        by simpa using hp
      show (if (!(occ.contains (hallCodeOf wh i)) && !(excl.contains (hallCodeOf wh i))) = true
            then _ else _) = _
      rw [if_neg hp, ih _ h, List.map_cons, List.filter_cons, if_neg hp]

theorem hallScan_zero (occ excl : List String) (wh : Int) :
    ∀ idxs : List Nat, hallScan occ excl wh 0 idxs [] =
      ((idxs.map (hallCodeOf wh)).filter
        (fun c => !(occ.contains c) && !(excl.contains c))).take 1 := by
  intro idxs
  induction idxs with
  | nil => simp [hallScan]
  | cons i rest ih =>
    by_cases hp : (!(occ.contains (hallCodeOf wh i)) && !(excl.contains (hallCodeOf wh i))) = true
    · show (if (!(occ.contains (hallCodeOf wh i)) && !(excl.contains (hallCodeOf wh i))) = true
            then _ else _) = _
      rw [if_pos hp, List.map_cons, List.filter_cons, if_pos hp, List.take_succ_cons,
        List.take_zero]
      simp
    · show (if (!(occ.contains (hallCodeOf wh i)) && !(excl.contains (hallCodeOf wh i))) = true
            then _ else _) = _
      rw [if_neg hp, ih, List.map_cons, List.filter_cons, if_neg hp]

theorem getNextEmptyHallSpots_eq_take (occ : List String) (wh : Int) (count : Nat)
    (excl : List String) :
    getNextEmptyHallSpots occ wh count excl = (hallFreeCodes occ excl wh).take (max count 1) := by
  unfold getNextEmptyHallSpots hallFreeCodes
  cases count with
  | zero =>
    simpa using hallScan_zero occ excl wh (List.range' 1 100)
  | succ k =>
    have h := hallScan_take occ excl wh (k + 1) (List.range' 1 100) [] (by simp)
    have hmax : max (k + 1) 1 = k + 1 := by omega
    simpa [hmax] using h

theorem mem_getNextEmptyHallSpots (occ excl : List String) (wh : Int) (count : Nat)
    (s : String) (h : s ∈ getNextEmptyHallSpots occ wh count excl) :
    occ.contains s = false ∧ excl.contains s = false := by
  rw [getNextEmptyHallSpots_eq_take] at h
  have hmem := List.mem_of_mem_take h
  unfold hallFreeCodes at hmem
  have hpred := (List.mem_filter.mp hmem).2
  simp at hpred
  exact ⟨by simp [hpred.1], by simp [hpred.2]⟩

/-- Claim C6 counterexample: requesting 0 Hall slots does not return an empty
list — the stop check runs only after a push, so the first free code is
still collected and returned. -/
theorem hall_spots_count_zero_counterexample :
    getNextEmptyHallSpots [] 1 0 [] = ["S-K1.PL1"] ∧
    getNextEmptyHallSpots [] 1 0 [] ≠ [] := by
  constructor
  · decide
  · decide

/-- Claim C6 (amended): `getNextEmptyHallSpots` scans Hall pallet indices
1..100 ascending and returns, in ascending index order, the codes
`S-K<wh>.PL<i>` in neither the occupied set nor the exclusion set, stopping
only after a code is collected once at least `count` codes are present — so
the result is the first `max count 1` free codes (`count = 0` behaves like
`count = 1`); in particular, requesting 2 slots for warehouse 1 with
positions 1 and 2 occupied returns `["S-K1.PL3", "S-K1.PL4"]`. -/
theorem hall_spots_take_characterization :
    (∀ (occ : List String) (wh : Int) (count : Nat) (excl : List String),
      getNextEmptyHallSpots occ wh count excl =
        (hallFreeCodes occ excl wh).take (max count 1))
    ∧ getNextEmptyHallSpots ["S-K1.PL1", "S-K1.PL2"] 1 2 [] = ["S-K1.PL3", "S-K1.PL4"] := by
  constructor
  · intro occ wh count excl
    exact getNextEmptyHallSpots_eq_take occ wh count excl
  · decide

theorem resolveAuto_ok (occ used : List String) (t : String) (w : Int)
    (h : resolveAuto occ used = .ok (t, w)) :
    (getNextEmptyHallSpots occ w 1 used).head? = some t ∧ (w = 1 ∨ w = 2 ∨ w = 3) ∧
    (∀ w' : Int, 1 ≤ w' → w' < w → getNextEmptyHallSpots occ w' 1 used = []) := by
  unfold resolveAuto at h
  split at h
  · next t0 rest heq =>
    injection h with h2
    obtain ⟨rfl, rfl⟩ := Prod.mk.injEq .. ▸ h2
    exact ⟨by rw [heq]; rfl, Or.inl rfl, fun w' h1 h2 => by omega⟩
  · next heq1 =>
    split at h
    · next t0 rest heq2 =>
      injection h with h2
      obtain ⟨rfl, rfl⟩ := Prod.mk.injEq .. ▸ h2
      refine ⟨by rw [heq2]; rfl, Or.inr (Or.inl rfl), ?_⟩
      intro w' h1 h2
      have : w' = 1 := by omega
      subst this
      exact heq1
    · next heq2 =>
      split at h
      · next t0 rest heq3 =>
        injection h with h2
        obtain ⟨rfl, rfl⟩ := Prod.mk.injEq .. ▸ h2
        refine ⟨by rw [heq3]; rfl, Or.inr (Or.inr rfl), ?_⟩
        intro w' h1 h2
        have : w' = 1 ∨ w' = 2 := by omega
        rcases this with rfl | rfl
        · exact heq1
        · exact heq2
      · exact absurd h (by simp)

theorem resolveDest_auto (occ used : List String) (m : PendingMove)
    (h : isAutoBranch m = true) :
    resolveDest occ used m = resolveAuto occ used := by
  unfold resolveDest
  unfold isAutoBranch at h
  cases hp : jsParseInt m.targetWarehouse with
  | none => rfl
  | some w =>
    rw [hp] at h
    simp at h
    simp [h]

theorem resolveDest_ok_head (occ used : List String) (m : PendingMove) (t : String) (w : Int)
    (h : resolveDest occ used m = .ok (t, w)) :
    (getNextEmptyHallSpots occ w 1 used).head? = some t := by
  unfold resolveDest at h
  split at h
  · exact (resolveAuto_ok occ used t w h).1
  · next w' hp =>
    split at h
    · exact (resolveAuto_ok occ used t w h).1
    · split at h
      · exact absurd h (by simp)
      · next t0 rest heq =>
        injection h with h2
        obtain ⟨rfl, rfl⟩ := Prod.mk.injEq .. ▸ h2
        rw [heq]
        rfl

theorem resolveDest_ok_free (occ used : List String) (m : PendingMove) (t : String) (w : Int)
    (h : resolveDest occ used m = .ok (t, w)) :
    used.contains t = false ∧ occ.contains t = false := by
  have hh := resolveDest_ok_head occ used m t w h
  have hmem : t ∈ getNextEmptyHallSpots occ w 1 used := by
    cases hg : getNextEmptyHallSpots occ w 1 used with
    | nil => rw [hg] at hh; exact absurd hh (by simp)
    | cons a rest =>
      rw [hg] at hh
      have : a = t := by simpa using hh
      subst this
      exact List.mem_cons_self a rest
  have := mem_getNextEmptyHallSpots occ used w 1 t hmem
  exact ⟨this.2, this.1⟩

theorem syncStep_dest_none (occ : List String) (rem : Remote) (m : PendingMove)
    (used : List String) (h : (syncStep occ rem m used).dest = none) :
    (syncStep occ rem m used).used = used := by
  unfold syncStep at *
  split at h
  · rfl
  · simp at h

theorem syncStep_dest_some (occ : List String) (rem : Remote) (m : PendingMove)
    (used : List String) (t : String) (w : Int)
    (h : (syncStep occ rem m used).dest = some (t, w)) :
    (syncStep occ rem m used).used = used ++ [t] ∧
    used.contains t = false ∧ occ.contains t = false ∧
    (syncStep occ rem m used).res = classifyOutcome m.lotCode (rem m t) := by
  unfold syncStep at *
  split at h
  · simp at h
  · next t0 w0 heq =>
    simp only [StepOut.dest] at h
    injection h with h2
    obtain ⟨rfl, rfl⟩ := Prod.mk.injEq .. ▸ h2
    have hfree := resolveDest_ok_free occ used m t0 w0 heq
    exact ⟨rfl, hfree.1, hfree.2, rfl⟩

theorem syncStep_res_lot (occ : List String) (rem : Remote) (m : PendingMove)
    (used : List String) : (syncStep occ rem m used).res.lotCode = m.lotCode := by
  unfold syncStep
  split
  · rfl
  · unfold classifyOutcome
    split
    · rfl
    · split
      · rfl
      · rfl

theorem runAll_nil (occ : List String) (rem : Remote) (used : List String) :
    runAll occ rem [] used = ([], used) := rfl

theorem runAll_cons (occ : List String) (rem : Remote) (m : PendingMove)
    (rest : List PendingMove) (used : List String) :
    runAll occ rem (m :: rest) used =
      ((⟨m, (syncStep occ rem m used).res, (syncStep occ rem m used).dest⟩ : SyncEntry) ::
        (runAll occ rem rest (syncStep occ rem m used).used).1,
       (runAll occ rem rest (syncStep occ rem m used).used).2) := rfl

theorem runAll_moves (occ : List String) (rem : Remote) :
    ∀ (moves : List PendingMove) (used : List String),
      (runAll occ rem moves used).1.map (·.move) = moves := by
  intro moves
  induction moves with
  | nil => intro used; rfl
  | cons m rest ih =>
    intro used
    rw [runAll_cons]
    simp [ih]

theorem mem_runAll (occ : List String) (rem : Remote) :
    ∀ (moves : List PendingMove) (used : List String) (e : SyncEntry),
      e ∈ (runAll occ rem moves used).1 →
      e.move ∈ moves ∧ ∃ u, (syncStep occ rem e.move u).res = e.res ∧
        (syncStep occ rem e.move u).dest = e.dest := by
  intro moves
  induction moves with
  | nil =>
    intro used e h
    simp [runAll_nil] at h
  | cons m rest ih =>
    intro used e h
    rw [runAll_cons] at h
    rcases List.mem_cons.mp h with h | h
    · subst h
      exact ⟨List.mem_cons_self _ _, used, rfl, rfl⟩
    · obtain ⟨hm, u, hu⟩ := ih _ e h
      exact ⟨List.mem_cons_of_mem _ hm, u, hu⟩

theorem runAll_dests_fresh (occ : List String) (rem : Remote) :
    ∀ (moves : List PendingMove) (used : List String),
      ((runAll occ rem moves used).1.filterMap (fun e => e.dest.map Prod.fst)).Nodup ∧
      (∀ t ∈ (runAll occ rem moves used).1.filterMap (fun e => e.dest.map Prod.fst),
        used.contains t = false) := by
  intro moves
  induction moves with
  | nil =>
    intro used
    simp [runAll_nil]
  | cons m rest ih =>
    intro used
    rw [runAll_cons]
    cases hd : (syncStep occ rem m used).dest with
    | none =>
      have hu := syncStep_dest_none occ rem m used hd
      rw [hu]
      simp only [List.filterMap_cons, hd, Option.map_none']
      exact ih used
    | some tw =>
      obtain ⟨t, w⟩ := tw
      obtain ⟨hu, hfresh, -, -⟩ := syncStep_dest_some occ rem m used t w hd
      rw [hu]
      simp only [List.filterMap_cons, hd, Option.map_some']
      obtain ⟨ihn, ihf⟩ := ih (used ++ [t])
      constructor
      · refine List.nodup_cons.mpr ⟨?_, ihn⟩
        intro hmem
        have := ihf t hmem
        simp at this
      · intro t' ht'
        rcases List.mem_cons.mp ht' with h | h
        · subst h
          exact hfresh
        · have := ihf t' h
          simp at this
          simp [this.1]

theorem runAll_append (occ : List String) (rem : Remote) :
    ∀ (a b : List PendingMove) (used : List String),
      runAll occ rem (a ++ b) used =
        ((runAll occ rem a used).1 ++ (runAll occ rem b (runAll occ rem a used).2).1,
         (runAll occ rem b (runAll occ rem a used).2).2) := by
  intro a
  induction a with
  | nil =>
    intro b used
    simp [runAll_nil]
  | cons m rest ih =>
    intro b used
    rw [List.cons_append, runAll_cons, runAll_cons, ih]
    simp

theorem runBatchesAux_eq_runAll (occ : List String) (rem : Remote) :
    ∀ (fuel : Nat) (moves : List PendingMove) (used : List String),
      moves.length ≤ fuel →
      runBatchesAux occ rem fuel moves used = runAll occ rem moves used := by
  intro fuel
  induction fuel with
  | zero =>
    intro moves used h
    have : moves = [] := List.length_eq_zero.mp (by omega)
    subst this
    rfl
  | succ f ih =>
    intro moves used h
    show (if moves.isEmpty then (([], used) : List SyncEntry × List String)
          else _) = _
    by_cases hm : moves.isEmpty
    · rw [if_pos hm]
      rw [List.isEmpty_iff.mp hm]
      rfl
    · rw [if_neg hm]
      have hlen : (moves.drop 5).length ≤ f := by
        have h1 : moves.length ≠ 0 := by
          intro h0
          exact hm (List.isEmpty_iff.mpr (List.length_eq_zero.mp h0))
        simp only [List.length_drop]
        omega
      dsimp only
      rw [ih (moves.drop 5) _ hlen]
      conv_rhs => rw [← List.take_append_drop 5 moves]
      rw [runAll_append]

theorem runBatches_eq_runAll (occ : List String) (rem : Remote)
    (moves : List PendingMove) (used : List String) :
    runBatches occ rem moves used = runAll occ rem moves used :=
  runBatchesAux_eq_runAll occ rem moves.length moves used le_rfl

theorem mem_alreadyExportedLots (p : List PendingMove) (d : List String) (lot : String) :
    lot ∈ alreadyExportedLots p d ↔
      ∃ m ∈ p, d.contains m.lotCode = true ∧ m.lotCode = lot := by
  simp only [alreadyExportedLots, List.mem_map, List.mem_filter]
  constructor
  · rintro ⟨m, ⟨hm, hd⟩, hlot⟩
    exact ⟨m, hm, hd, hlot⟩
  · rintro ⟨m, hm, hd, hlot⟩
    exact ⟨m, ⟨hm, hd⟩, hlot⟩

theorem mem_successfulLotsOf (es : List SyncEntry) (lot : String) :
    lot ∈ successfulLotsOf es ↔
      ∃ e ∈ es, e.res.success = true ∧ e.res.lotCode = lot := by
  simp only [successfulLotsOf, List.mem_map, List.mem_filter]
  constructor
  · rintro ⟨r, ⟨⟨e, he, hre⟩, hs⟩, hlot⟩
    subst hre
    exact ⟨e, he, hs, hlot⟩
  · rintro ⟨e, he, hs, hlot⟩
    exact ⟨e.res, ⟨⟨e, he, rfl⟩, hs⟩, hlot⟩

theorem handleSync_entries (p : List PendingMove) (d occ : List String) (rem : Remote) :
    (handleSync p d occ rem).entries =
      if p.isEmpty ∨ (movesToProcessOf p d).isEmpty then []
      else (runAll occ rem (movesToProcessOf p d) []).1 := by
  by_cases hp : p.isEmpty
  · unfold handleSync
    rw [if_pos hp, if_pos (Or.inl hp)]
  · by_cases hm : (movesToProcessOf p d).isEmpty
    · unfold handleSync
      rw [if_neg hp]
      dsimp only
      rw [if_pos hm, if_pos (Or.inr hm)]
    · unfold handleSync
      rw [if_neg hp]
      dsimp only
      rw [if_neg hm]
      dsimp only
      rw [runBatches_eq_runAll, if_neg (by simp [hp, hm])]

theorem handleSync_alreadyExported (p : List PendingMove) (d occ : List String)
    (rem : Remote) :
    (handleSync p d occ rem).alreadyExported =
      if p.isEmpty then [] else alreadyExportedLots p d := by
  by_cases hp : p.isEmpty
  · unfold handleSync
    rw [if_pos hp, if_pos hp]
  · by_cases hm : (movesToProcessOf p d).isEmpty
    · unfold handleSync
      rw [if_neg hp]
      dsimp only
      rw [if_pos hm, if_neg hp]
    · unfold handleSync
      rw [if_neg hp]
      dsimp only
      rw [if_neg hm, if_neg hp]

theorem handleSync_finalQueue (p : List PendingMove) (d occ : List String) (rem : Remote)
    (hp : p.isEmpty = false) (hm : (movesToProcessOf p d).isEmpty = false) :
    (handleSync p d occ rem).finalQueue =
      (if (successfulLotsOf ((runAll occ rem (movesToProcessOf p d) []).1) ++
            alreadyExportedLots p d).isEmpty then p
       else p.filter (fun m =>
         !((successfulLotsOf ((runAll occ rem (movesToProcessOf p d) []).1) ++
            alreadyExportedLots p d).contains m.lotCode))) := by
  unfold handleSync
  rw [if_neg (by simp [hp])]
  dsimp only
  rw [if_neg (by simp [hm]), runBatches_eq_runAll]

theorem mem_handleSync_finalQueue (p : List PendingMove) (d occ : List String)
    (rem : Remote) (q : PendingMove) :
    q ∈ (handleSync p d occ rem).finalQueue ↔
      (q ∈ p ∧ d.contains q.lotCode = false ∧
        ∀ e ∈ (handleSync p d occ rem).entries, e.res.success = true →
          e.res.lotCode ≠ q.lotCode) := by
  by_cases hp : p.isEmpty
  · have hpe : p = [] := List.isEmpty_iff.mp hp
    subst hpe
    simp [handleSync]
  · by_cases hm : (movesToProcessOf p d).isEmpty
    · have hdel : ∀ m ∈ p, d.contains m.lotCode = true := by
        intro m hm'
        by_contra hc
        have hmem : m ∈ movesToProcessOf p d :=
          List.mem_filter.mpr ⟨hm', by simpa using hc⟩
        rw [List.isEmpty_iff.mp hm] at hmem
        simp at hmem
      have hfq : (handleSync p d occ rem).finalQueue = [] := by
        unfold handleSync
        rw [if_neg hp]
        dsimp only
        rw [if_pos hm]
      rw [hfq]
      simp only [List.not_mem_nil, false_iff]
      rintro ⟨hq, hdq, -⟩
      rw [hdel q hq] at hdq
      exact absurd hdq (by simp)
    · have hent := handleSync_entries p d occ rem
      rw [if_neg (by simp [hp, hm])] at hent
      have hfq := handleSync_finalQueue p d occ rem (by simpa using hp) (by simpa using hm)
      rw [hfq, hent]
      by_cases hac : (successfulLotsOf ((runAll occ rem (movesToProcessOf p d) []).1) ++
          alreadyExportedLots p d).isEmpty
      · rw [if_pos hac]
        have hboth := List.append_eq_nil.mp (List.isEmpty_iff.mp hac)
        have hnd : ∀ m ∈ p, d.contains m.lotCode = false := by
          intro m hm'
          by_contra hc
          have hcc : d.contains m.lotCode = true := by simpa using hc
          have hin : m.lotCode ∈ alreadyExportedLots p d :=
            (mem_alreadyExportedLots p d m.lotCode).mpr ⟨m, hm', hcc, rfl⟩
          rw [hboth.2] at hin
          simp at hin
        have hns : ∀ e ∈ (runAll occ rem (movesToProcessOf p d) []).1,
            e.res.success = false := by
          intro e he
          by_contra hc
          have hcc : e.res.success = true := by simpa using hc
          have hin : e.res.lotCode ∈
              successfulLotsOf ((runAll occ rem (movesToProcessOf p d) []).1) :=
            (mem_successfulLotsOf _ _).mpr ⟨e, he, hcc, rfl⟩
          rw [hboth.1] at hin
          simp at hin
        constructor
        · intro hq
          refine ⟨hq, hnd q hq, fun e he hs => ?_⟩
          rw [hns e he] at hs
          exact absurd hs (by simp)
        · rintro ⟨hq, -, -⟩
          exact hq
      · rw [if_neg hac, List.mem_filter]
        constructor
        · rintro ⟨hq, hcl⟩
          simp only [Bool.not_eq_true'] at hcl
          have hnotmem : q.lotCode ∉
              (successfulLotsOf ((runAll occ rem (movesToProcessOf p d) []).1) ++
                alreadyExportedLots p d) := by
            simp at hcl
            simpa using hcl
          refine ⟨hq, ?_, ?_⟩
          · by_contra hc
            have hcc : d.contains q.lotCode = true := by simpa using hc
            exact hnotmem (List.mem_append.mpr (Or.inr
              ((mem_alreadyExportedLots p d q.lotCode).mpr ⟨q, hq, hcc, rfl⟩)))
          · intro e he hs heq
            exact hnotmem (List.mem_append.mpr (Or.inl
              ((mem_successfulLotsOf _ _).mpr ⟨e, he, hs, heq⟩)))
        · rintro ⟨hq, hd, hsucc⟩
          refine ⟨hq, ?_⟩
          have hgoal : q.lotCode ∉
              (successfulLotsOf ((runAll occ rem (movesToProcessOf p d) []).1) ++
                alreadyExportedLots p d) := by
            intro hmem
            rcases List.mem_append.mp hmem with hin | hin
            · obtain ⟨e, he, hs, hlot⟩ := (mem_successfulLotsOf _ _).mp hin
              exact hsucc e he hs hlot
            · obtain ⟨m, hm', hdm, hml⟩ := (mem_alreadyExportedLots p d _).mp hin
              rw [hml] at hdm
              rw [hdm] at hd
              exact absurd hd (by simp)
          simp [hgoal]

theorem handleSync_entry_lot (p : List PendingMove) (d occ : List String) (rem : Remote)
    (e : SyncEntry) (he : e ∈ (handleSync p d occ rem).entries) :
    e.res.lotCode = e.move.lotCode := by
  rw [handleSync_entries] at he
  by_cases hbr : p.isEmpty ∨ (movesToProcessOf p d).isEmpty
  · rw [if_pos hbr] at he
    simp at he
  · rw [if_neg hbr] at he
    obtain ⟨-, u, hres, -⟩ := mem_runAll occ rem _ [] e he
    rw [← hres]
    exact syncStep_res_lot occ rem e.move u

theorem handleSync_entry_move (p : List PendingMove) (d occ : List String) (rem : Remote)
    (e : SyncEntry) (he : e ∈ (handleSync p d occ rem).entries) :
    e.move ∈ p ∧ d.contains e.move.lotCode = false := by
  rw [handleSync_entries] at he
  by_cases hbr : p.isEmpty ∨ (movesToProcessOf p d).isEmpty
  · rw [if_pos hbr] at he
    simp at he
  · rw [if_neg hbr] at he
    obtain ⟨hmv, -⟩ := mem_runAll occ rem _ [] e he
    have := List.mem_filter.mp hmv
    exact ⟨this.1, by simpa using this.2⟩

/-- Claim C1: during a single sync pass no two pending mutations are assigned
the same destination position code — the shared in-memory exclusion set is
extended before each remote move call is dispatched, so the pass's
destination codes are pairwise distinct. -/
theorem sync_destinations_nodup (p : List PendingMove) (d occ : List String)
    (rem : Remote) : (destCodes (handleSync p d occ rem)).Nodup := by
  unfold destCodes
  rw [handleSync_entries]
  by_cases h : p.isEmpty ∨ (movesToProcessOf p d).isEmpty
  · rw [if_pos h]
    simp
  · rw [if_neg h]
    exact (runAll_dests_fresh occ rem (movesToProcessOf p d) []).1

/-- Claim C2 counterexample: (a) a rejection with HTTP status 500 whose error
message merely contains the substring `404` is classified as success
(`Recovered`) and the mutation is removed from the queue, not recorded as a
failure; (b) a rejection with a non-404 error is nevertheless removed from
the queue when another mutation sharing its lot code succeeded. -/
theorem sync_404_message_counterexample :
    ((handleSync [mvRecA] [] [] remoteReject404Msg).entries.map (·.res)) =
      [⟨true, "L1", some "Recovered"⟩] ∧
    (handleSync [mvRecA] [] [] remoteReject404Msg).finalQueue = [] ∧
    ((handleSync dupMovesC2 [] [] remoteDupC2).entries.map (·.res)) =
      [⟨true, "L2", none⟩, ⟨false, "L2", some "bad2"⟩] ∧
    (handleSync dupMovesC2 [] [] remoteDupC2).finalQueue = [] := by
  exact ⟨by decide, by decide, by decide, by decide⟩

/-- Claim C2 (amended): a remote rejection whose HTTP status is 404, or whose
error message contains the substring `404`, is classified as success
(`Recovered`) and every queued mutation with that lot code is removed; any
other rejection is recorded as a per-mutation failure carrying the response
body message, else the error message, else the generic network message, and
the mutation remains queued unless another executed mutation with the same
lot code succeeded. -/
theorem sync_reject_classification (p : List PendingMove) (d occ : List String)
    (rem : Remote) (e : SyncEntry) (he : e ∈ (handleSync p d occ rem).entries)
    (t : String) (w : Int) (st : Option Nat) (dm ms : Option String)
    (hdest : e.dest = some (t, w)) (hrem : rem e.move t = MoveOutcome.reject st dm ms) :
    (is404 st ms = true →
      e.res = ⟨true, e.move.lotCode, some "Recovered"⟩ ∧
      ∀ q ∈ (handleSync p d occ rem).finalQueue, q.lotCode ≠ e.move.lotCode)
    ∧ (is404 st ms = false →
      e.res = ⟨false, e.move.lotCode, some (rejectMessage dm ms)⟩ ∧
      ((∀ e' ∈ (handleSync p d occ rem).entries, e'.res.success = true →
          e'.move.lotCode ≠ e.move.lotCode) →
        e.move ∈ (handleSync p d occ rem).finalQueue)) := by
  have hent := handleSync_entries p d occ rem
  have he0 := he
  rw [hent] at he0
  by_cases hbr : p.isEmpty ∨ (movesToProcessOf p d).isEmpty
  · rw [if_pos hbr] at he0
    simp at he0
  · rw [if_neg hbr] at he0
    obtain ⟨hmv, u, hres, hdest'⟩ := mem_runAll occ rem _ [] e he0
    rw [hdest] at hdest'
    obtain ⟨-, -, -, hcls⟩ := syncStep_dest_some occ rem e.move u t w hdest'
    have hclass : e.res = classifyOutcome e.move.lotCode (rem e.move t) := by
      rw [← hres, hcls]
    constructor
    · intro h404
      have hres_eq : e.res = ⟨true, e.move.lotCode, some "Recovered"⟩ := by
        rw [hclass, hrem]
        simp only [classifyOutcome]
        rw [if_pos h404]
      refine ⟨hres_eq, ?_⟩
      intro q hqmem heq
      have hiff := (mem_handleSync_finalQueue p d occ rem q).mp hqmem
      have hne := hiff.2.2 e he (by rw [hres_eq])
      apply hne
      rw [hres_eq]
      exact heq.symm
    · intro h404f
      have hres_eq : e.res = ⟨false, e.move.lotCode, some (rejectMessage dm ms)⟩ := by
        rw [hclass, hrem]
        simp only [classifyOutcome]
        rw [if_neg (by simp [h404f])]
      refine ⟨hres_eq, ?_⟩
      intro hnos
      apply (mem_handleSync_finalQueue p d occ rem e.move).mpr
      have hmvp := List.mem_filter.mp hmv
      refine ⟨hmvp.1, by simpa using hmvp.2, ?_⟩
      intro e' he'' hs'
      rw [handleSync_entry_lot p d occ rem e' he'']
      exact hnos e' he'' hs'

theorem sync_reject_classification_witness :
    (⟨mvRecA, ⟨true, "L1", some "Recovered"⟩, some ("S-K1.PL1", 1)⟩ : SyncEntry).res =
      ⟨true, mvRecA.lotCode, some "Recovered"⟩ :=
  ((sync_reject_classification [mvRecA] [] [] remoteReject404Msg
      ⟨mvRecA, ⟨true, "L1", some "Recovered"⟩, some ("S-K1.PL1", 1)⟩ (by decide)
      "S-K1.PL1" 1 (some 500) none (some "proxy returned 404 page")
      (by decide) (by decide)).1 (by decide)).1

/-- Claim C3 counterexample: two pending mutations share lot code `LX`; the
first move succeeds remotely and the second fails with a non-404 error, yet
the final queue is empty — the failed mutation does not remain queued,
because removal filters by lot code. -/
theorem sync_failed_removed_counterexample :
    ((handleSync dupMovesC3 [] [] remoteDupC3).entries.map (·.res)) =
      [⟨true, "LX", none⟩, ⟨false, "LX", some "boom"⟩] ∧
    (handleSync dupMovesC3 [] [] remoteDupC3).finalQueue = [] := by
  exact ⟨by decide, by decide⟩

/-- Claim C3 (amended): after the Reporting step a pending mutation remains
in the queue iff it was queued, its lot code is not in the deleted set, and
no executed mutation carrying the same lot code succeeded or was recovered —
removal is keyed by lot code, so a failed mutation is also removed whenever
another mutation sharing its lot code was cleared. -/
theorem sync_final_queue_characterization (p : List PendingMove) (d occ : List String)
    (rem : Remote) (q : PendingMove) :
    q ∈ (handleSync p d occ rem).finalQueue ↔
      (q ∈ p ∧ d.contains q.lotCode = false ∧
        ∀ e ∈ (handleSync p d occ rem).entries, e.res.success = true →
          e.res.lotCode ≠ q.lotCode) :=
  mem_handleSync_finalQueue p d occ rem q

theorem sync_final_queue_characterization_witness :
    (⟨"idD", "EO2", "LX", "Q2", "AUTO", "u", 0⟩ : PendingMove) ∉
      (handleSync dupMovesC3 [] [] remoteDupC3).finalQueue := by
  intro hmem
  have h := (sync_final_queue_characterization dupMovesC3 [] [] remoteDupC3
    ⟨"idD", "EO2", "LX", "Q2", "AUTO", "u", 0⟩).mp hmem
  exact h.2.2
    ⟨⟨"idC", "EO1", "LX", "Q1", "AUTO", "u", 0⟩, ⟨true, "LX", none⟩, some ("S-K1.PL1", 1)⟩
    (by decide) (by decide) (by decide)

/-- Claim C4: every pending mutation whose lot code appears in the fetched
deleted/exported-lot set is dropped from the queue and counted as
skipped-exported, and no move call is issued for it; only mutations whose
lot code is outside that set are executed. -/
theorem sync_deleted_lot_skipped (p : List PendingMove) (d occ : List String)
    (rem : Remote) (m : PendingMove) (hm : m ∈ p) (hd : d.contains m.lotCode = true) :
    m ∉ (handleSync p d occ rem).finalQueue ∧
    m.lotCode ∈ (handleSync p d occ rem).alreadyExported ∧
    (∀ e ∈ (handleSync p d occ rem).entries, e.move.lotCode ≠ m.lotCode) ∧
    (∀ e ∈ (handleSync p d occ rem).entries, d.contains e.move.lotCode = false) := by
  have hpne : p.isEmpty = false := by
    cases p with
    | nil => simp at hm
    | cons a l => rfl
  have hnotdel : ∀ e ∈ (handleSync p d occ rem).entries,
      d.contains e.move.lotCode = false := by
    intro e he
    exact (handleSync_entry_move p d occ rem e he).2
  refine ⟨?_, ?_, ?_, hnotdel⟩
  · intro hmem
    obtain ⟨-, hdq, -⟩ := (mem_handleSync_finalQueue p d occ rem m).mp hmem
    rw [hd] at hdq
    exact absurd hdq (by simp)
  · rw [handleSync_alreadyExported, if_neg (by simp [hpne])]
    exact (mem_alreadyExportedLots p d m.lotCode).mpr ⟨m, hm, hd, rfl⟩
  · intro e he heq
    have := hnotdel e he
    rw [heq, hd] at this
    exact absurd this (by simp)

theorem sync_deleted_lot_skipped_witness :
    mvDeleted ∉ (handleSync [mvDeleted, mvKept] ["LD"] [] remoteAllOk).finalQueue ∧
    mvDeleted.lotCode ∈
      (handleSync [mvDeleted, mvKept] ["LD"] [] remoteAllOk).alreadyExported := by
  have h := sync_deleted_lot_skipped [mvDeleted, mvKept] ["LD"] [] remoteAllOk mvDeleted
    (by decide) (by decide)
  exact ⟨h.1, h.2.1⟩

/-- Claim C5: AUTO destination resolution tries warehouse 1, then 2, then 3,
and takes the first free Hall slot of the first warehouse that has one under
the occupied snapshot and the exclusion set; consequently, with three AUTO
Hall-moves queued, warehouse 1 holding exactly one free Hall slot and
warehouse 2 empty, exactly one mutation is routed to warehouse 1 and the
other two to warehouse 2, with pairwise-distinct destination codes. -/
theorem sync_auto_allocation_policy :
    (∀ (occ used : List String) (m : PendingMove), isAutoBranch m = true →
      ∀ (t : String) (w : Int), resolveDest occ used m = .ok (t, w) →
        ((w = 1 ∨ w = 2 ∨ w = 3) ∧
         (getNextEmptyHallSpots occ w 1 used).head? = some t ∧
         ∀ w' : Int, 1 ≤ w' → w' < w → getNextEmptyHallSpots occ w' 1 used = []))
    ∧ ((handleSync autoMoves [] occ99 remoteAllOk).entries.map (fun e => e.dest)) =
        [some ("S-K1.PL100", 1), some ("S-K2.PL1", 2), some ("S-K2.PL2", 2)]
    ∧ destCodes (handleSync autoMoves [] occ99 remoteAllOk) =
        ["S-K1.PL100", "S-K2.PL1", "S-K2.PL2"]
    ∧ (destCodes (handleSync autoMoves [] occ99 remoteAllOk)).Nodup := by
  refine ⟨?_, by decide, by decide, by decide⟩
  intro occ used m hauto t w hres
  rw [resolveDest_auto occ used m hauto] at hres
  obtain ⟨h1, h2, h3⟩ := resolveAuto_ok occ used t w hres
  exact ⟨h2, h1, h3⟩

theorem sync_auto_allocation_policy_witness :
    ((1 : Int) = 1 ∨ (1 : Int) = 2 ∨ (1 : Int) = 3) ∧
    (getNextEmptyHallSpots [] 1 1 []).head? = some "S-K1.PL1" :=
  ⟨(sync_auto_allocation_policy.1 [] [] mvAuto (by decide) "S-K1.PL1" 1 rfl).1,
   (sync_auto_allocation_policy.1 [] [] mvAuto (by decide) "S-K1.PL1" 1 rfl).2.1⟩

theorem fnapLoop_eq_findSome (locations : List String) (effOcc : String → Option String)
    (w : Nat) (z : String) (r l : Nat) :
    ∀ idxs : List Nat, fnapLoop locations effOcc w z r l idxs =
      (idxs.findSome? (fun i =>
        (locations.find? (matchesLocation w z r l i)).bind (fun c =>
          if truthyStr (effOcc c) || truthyStr (effOcc (toUpperStr c)) then none
          else some c))).getD "" := by
  intro idxs
  induction idxs with
  | nil => rfl
  | cons i rest ih =>
    simp only [fnapLoop, List.findSome?_cons]
    cases hf : locations.find? (matchesLocation w z r l i) with
    | none =>
      dsimp only [Option.bind]
      exact ih
    | some c =>
      dsimp only [Option.bind]
      split
      · next hocc =>
        dsimp only
        exact ih
      · next hocc =>
        rfl

/-- Claim C7 counterexample: two location entries token-match warehouse 1,
zone A, row 1, level 1, pallet index 1; the first is effectively occupied
and only the first matching entry per index is ever considered, so the scan
returns the empty string even though the second matching entry is free. -/
theorem find_next_duplicate_counterexample :
    findNextAvailablePosition locsDup (effectiveOccupied occDup []) 1 "A"
      (some 1) (some 1) = "" ∧
    matchesLocation 1 "A" 1 1 1 "A-K1.D1.T1.PL1" = true ∧
    effectiveOccupied occDup [] "A-K1.D1.T1.PL1" = none ∧
    effectiveOccupied occDup [] (toUpperStr "A-K1.D1.T1.PL1") = none ∧
    "A-K1.D1.T1.PL1" ∈ locsDup := by
  exact ⟨by decide, by decide, by decide, by decide, by decide⟩

/-- Claim C7 (amended): `findNextAvailablePosition` scans pallet indices 1..8
ascending; for each index it considers only the first location-list entry
whose tokens match the requested warehouse, zone, row and level with suffix
`PL<i>`, returns it when it is not in the effective occupancy (server
occupancy merged with pending local items), and otherwise skips to the next
index — later matching entries of the same index are never tried; it returns
the empty string when every index yields no matching entry or an occupied
first match. The claim's two concrete instances hold: all of PL1..PL3 free
returns PL1, and with PL1 claimed by a pending item and PL2 by the server it
returns PL3. -/
theorem find_next_per_index_characterization :
    (∀ (locations : List String) (effOcc : String → Option String) (warehouse : Nat)
       (zone : String) (row level : Option Nat),
      findNextAvailablePosition locations effOcc warehouse zone row level =
        findNextAvailableSpec locations effOcc warehouse zone row level)
    ∧ findNextAvailablePosition locsFree3 (effectiveOccupied occNone []) 1 "A"
        (some 1) (some 1) = "A-K1D1T1.PL1"
    ∧ findNextAvailablePosition locsFree3 (effectiveOccupied serverOccPL2 itemsPL1) 1 "A"
        (some 1) (some 1) = "A-K1D1T1.PL3" := by
  refine ⟨?_, by decide, by decide⟩
  intro locations effOcc warehouse zone row level
  unfold findNextAvailablePosition findNextAvailableSpec
  cases row with
  | none => rfl
  | some r =>
    cases level with
    | none => rfl
    | some l =>
      dsimp only
      by_cases h0 : r = 0 ∨ l = 0
      · rw [if_pos h0, if_pos h0]
      · rw [if_neg h0, if_neg h0]
        exact fnapLoop_eq_findSome locations effOcc warehouse zone r l (List.range' 1 8)

theorem hallLoop_eq_findSome (pd : String → Option Detail) (mk : Nat → String) :
    ∀ idxs : List Nat, hallLoop pd mk idxs = (idxs.map mk).findSome? pd := by
  intro idxs
  induction idxs with
  | nil => rfl
  | cons i rest ih =>
    simp only [hallLoop, List.map_cons, List.findSome?_cons]
    cases pd (mk i) with
    | none => exact ih
    | some d => rfl

theorem rackLoop_eq_findSome (pd : String → Option Detail) (mk1 mk2 : Nat → String) :
    ∀ idxs : List Nat, rackLoop pd mk1 mk2 idxs =
      (idxs.flatMap (fun i => [mk1 i, mk2 i])).findSome? pd := by
  intro idxs
  induction idxs with
  | nil => rfl
  | cons i rest ih =>
    simp only [rackLoop, List.flatMap_cons, List.cons_append, List.findSome?_cons]
    cases pd (mk1 i) with
    | some d => rfl
    | none =>
      dsimp only
      cases pd (mk2 i) with
      | some d => rfl
      | none =>
        dsimp only
        rw [ih]
        rfl

/-- Claim C10 counterexample: (a) for lot `LOTX` stored at shelf position
`K1-A-D1-T1-P1`, only the rack token is zero-padded on retry — an index
holding only the signature with row and level both zero-padded
(`1-A-01-01-1`, the claimed zero-padded row/level retry) is never probed and
the lookup returns null although that signature matches; (b) for lot `LOTY`
stored at hall position `K2-S-P5` with an explicit warehouse 2, warehouses
1..3 are brute-forced in ascending order anyway and warehouse 1's detail is
returned, so no preference is given to the explicit-warehouse match. -/
theorem lookup_lot_fallback_counterexample :
    regexGroups (replaceDots (toUpperStr "K1-A-D1-T1-P1")).data =
      some ⟨some ['1'], some 'A', some ['1'], some ['1'], some ['1']⟩ ∧
    lookupLot lotToPosShelf posToDetailPadded "LOTX" = none ∧
    posToDetailPadded (specPaddedBothKey 1 'A' ['1'] ['1'] 1) = some detail1 ∧
    lookupLot lotToPosHall posToDetailHall "LOTY" =
      some ⟨"A1", "A1", "kg", 1, "LOTY", "K2-S-P5"⟩ := by
  exact ⟨by decide, by decide, by decide, by decide⟩

/-- Claim C10 (amended): `lookupLot` normalizes the lot code, parses the
stored position string with the liberal pattern, and probes candidate
signatures in a fixed order: hall-type positions (zone S, or zone B with no
rack token) always try warehouses 1, 2, 3 ascending, even when a warehouse
is explicit; shelf positions use the explicit warehouse when present and
warehouses 1, 2, 3 ascending otherwise, trying for each warehouse the raw
rack/level signature and then a retry with only the rack token zero-padded
to two digits (the level token is never padded); it returns null exactly
when the lot is unknown, the position fails the liberal parse, or none of
these candidate signatures is present. -/
theorem lookup_lot_candidates_eq (lotToPos : String → Option String)
    (posToDetail : String → Option Detail) (lotCode : String) :
    lookupLot lotToPos posToDetail lotCode =
      lookupLotByCandidates lotToPos posToDetail lotCode := by
  unfold lookupLot lookupLotByCandidates lookupCandidates
  dsimp only
  cases lotToPos (toUpperStr (jsTrim lotCode)) with
  | none => rfl
  | some posString =>
    dsimp only
    cases regexGroups (replaceDots (toUpperStr posString)).data with
    | none => rfl
    | some cp =>
      dsimp only
      cases hg : cp.g2 with
      | none => rfl
      | some z =>
        dsimp only
        by_cases hz : z = 'S' ∨ (z = 'B' ∧ cp.g3 = none)
        · rw [if_pos hz, if_pos hz, hallLoop_eq_findSome]
        · rw [if_neg hz, if_neg hz, rackLoop_eq_findSome]
